import Mathlib

set_option maxRecDepth 40000

/-!
Verification of the sprite-kit identity engine and API client layer.

The identity engine (`src/common/identity.ts`) and the API client
(`src/common/client.ts`) are embedded shallowly: pure TypeScript functions
become Lean functions over `String`/`List`, Node's `crypto` SHA-256 is
implemented bit-for-bit on `Nat` with explicit reduction modulo `2^32`,
and the streaming/retry control flow of the client is modelled as a
function of the per-attempt transport outcomes and the parsed NDJSON
event list of a response stream.
-/

/-! ## SHA-256 (Node `crypto.createHash('sha256')`), on `Nat` mod `2^32` -/

/-- Truncate to a 32-bit word. -/
def w32 (n : Nat) : Nat := n % 4294967296

/-- Right rotation of a 32-bit word by `n` bits. -/
def rotr (n w : Nat) : Nat := w32 ((w >>> n) ||| (w <<< (32 - n)))

def shaCh (x y z : Nat) : Nat := (x &&& y) ^^^ ((x ^^^ 4294967295) &&& z)

def shaMaj (x y z : Nat) : Nat := (x &&& y) ^^^ (x &&& z) ^^^ (y &&& z)

def bigSigma0 (x : Nat) : Nat := rotr 2 x ^^^ rotr 13 x ^^^ rotr 22 x

def bigSigma1 (x : Nat) : Nat := rotr 6 x ^^^ rotr 11 x ^^^ rotr 25 x

def smallSigma0 (x : Nat) : Nat := rotr 7 x ^^^ rotr 18 x ^^^ (x >>> 3)

def smallSigma1 (x : Nat) : Nat := rotr 17 x ^^^ rotr 19 x ^^^ (x >>> 10)

/-- The 64 SHA-256 round constants. -/
def sha256K : List Nat := [
  1116352408, 1899447441, 3049323471, 3921009573, 961987163, 1508970993,
  2453635748, 2870763221, 3624381080, 310598401, 607225278, 1426881987,
  1925078388, 2162078206, 2614888103, 3248222580, 3835390401, 4022224774,
  264347078, 604807628, 770255983, 1249150122, 1555081692, 1996064986,
  2554220882, 2821834349, 2952996808, 3210313671, 3336571891, 3584528711,
  113926993, 338241895, 666307205, 773529912, 1294757372, 1396182291,
  1695183700, 1986661051, 2177026350, 2456956037, 2730485921, 2820302411,
  3259730800, 3345764771, 3516065817, 3600352804, 4094571909, 275423344,
  430227734, 506948616, 659060556, 883997877, 958139571, 1322822218,
  1537002063, 1747873779, 1955562222, 2024104815, 2227730452, 2361852424,
  2428436474, 2756734187, 3204031479, 3329325298]

/-- Working state `(a,b,c,d,e,f,g,h)` of the compression function. -/
structure Sha256State where
  a : Nat
  b : Nat
  c : Nat
  d : Nat
  e : Nat
  f : Nat
  g : Nat
  h : Nat

/-- SHA-256 initial hash value. -/
def sha256IV : Sha256State :=
  ⟨1779033703, 3144134277, 1013904242, 2773480762, 1359893119, 2600822924, 528734635, 1541459225⟩

/-- One round of the compression function with constant-word pair `kw`. -/
def shaCompressRound (st : Sha256State) (kw : Nat × Nat) : Sha256State :=
  let t1 := w32 (st.h + bigSigma1 st.e + shaCh st.e st.f st.g + kw.1 + kw.2)
  let t2 := w32 (bigSigma0 st.a + shaMaj st.a st.b st.c)
  ⟨w32 (t1 + t2), st.a, st.b, st.c, w32 (st.d + t1), st.e, st.f, st.g⟩

/-- Extend the 16 block words by `k` further message-schedule words. -/
def shaSchedule (k : Nat) (ws : List Nat) : List Nat :=
  match k with
  | 0 => ws
  | k' + 1 =>
    let i := ws.length
    let nw := w32 (smallSigma1 (ws.getD (i - 2) 0) + ws.getD (i - 7) 0 +
                   smallSigma0 (ws.getD (i - 15) 0) + ws.getD (i - 16) 0)
    shaSchedule k' (ws ++ [nw])

/-- Compress one 16-word block into the running state. -/
def shaCompressBlock (st : Sha256State) (block : List Nat) : Sha256State :=
  let ws := shaSchedule 48 block
  let t := (ws.zip sha256K).foldl shaCompressRound st
  ⟨w32 (st.a + t.a), w32 (st.b + t.b), w32 (st.c + t.c), w32 (st.d + t.d),
   w32 (st.e + t.e), w32 (st.f + t.f), w32 (st.g + t.g), w32 (st.h + t.h)⟩

/-- Big-endian 4-byte groups to 32-bit words. -/
def bytesToWords : List Nat → List Nat
  | a :: b :: c :: d :: rest => (((a <<< 24) ||| (b <<< 16) ||| (c <<< 8)) ||| d) :: bytesToWords rest
  | _ => []

/-- 64-bit big-endian byte representation. -/
def beBytes8 (n : Nat) : List Nat :=
  [(n >>> 56) &&& 255, (n >>> 48) &&& 255, (n >>> 40) &&& 255, (n >>> 32) &&& 255,
   (n >>> 24) &&& 255, (n >>> 16) &&& 255, (n >>> 8) &&& 255, n &&& 255]

/-- SHA-256 padding: `0x80`, zeros, then the bit length, to a multiple of 64 bytes. -/
def padMessage (msg : List Nat) : List Nat :=
  msg ++ 128 :: (List.replicate ((64 - (msg.length + 9) % 64) % 64) 0 ++ beBytes8 (8 * msg.length))

/-- Split a byte list into chunks of 64 (fuel-structured so it reduces in the kernel). -/
def chunksAux : Nat → List Nat → List (List Nat)
  | 0, _ => []
  | _, [] => []
  | fuel + 1, b :: rest => ((b :: rest).take 64) :: chunksAux fuel ((b :: rest).drop 64)

/-- Split a byte list into chunks of 64. -/
def chunks64 (bs : List Nat) : List (List Nat) := chunksAux bs.length bs

/-- The eight 32-bit words of the SHA-256 digest of a byte sequence. -/
def sha256Words (msg : List Nat) : List Nat :=
  let fin := (chunks64 (padMessage msg)).foldl
    (fun st block => shaCompressBlock st (bytesToWords block)) sha256IV
  [fin.a, fin.b, fin.c, fin.d, fin.e, fin.f, fin.g, fin.h]

def hexChars : List Char := "0123456789abcdef".data

def hexDigit (n : Nat) : Char := hexChars.getD (n % 16) '0'

/-- Lowercase hexadecimal rendering of a 32-bit word, 8 characters. -/
def toHex8 (w : Nat) : List Char :=
  [hexDigit (w / 268435456), hexDigit (w / 16777216), hexDigit (w / 1048576), hexDigit (w / 65536),
   hexDigit (w / 4096), hexDigit (w / 256), hexDigit (w / 16), hexDigit w]

/-- UTF-8 encoding of one character (Node hashes the UTF-8 bytes of a string). -/
def utf8EncodeChar (c : Char) : List Nat :=
  let n := c.toNat
  if n < 128 then [n]
  else if n < 2048 then [192 ||| (n >>> 6), 128 ||| (n &&& 63)]
  else if n < 65536 then [224 ||| (n >>> 12), 128 ||| ((n >>> 6) &&& 63), 128 ||| (n &&& 63)]
  else [240 ||| (n >>> 18), 128 ||| ((n >>> 12) &&& 63), 128 ||| ((n >>> 6) &&& 63), 128 ||| (n &&& 63)]

def utf8Bytes (s : String) : List Nat := (s.data.map utf8EncodeChar).flatten

/-- `crypto.createHash('sha256').update(s).digest('hex')`. -/
def sha256Hex (s : String) : String := String.mk (((sha256Words (utf8Bytes s)).map toHex8).flatten)

/-! ## Identity engine (`src/common/identity.ts`) -/

/-- JSON-representable matrix values (GitHub Actions matrix cells hold JSON scalars). -/
inductive Jsonv where
  | str (s : String)
  | num (n : Int)
  | bool (b : Bool)
  | null
deriving DecidableEq

/-- A JS object is modelled as its (insertion-ordered) key/value pair list. -/
abbrev MatrixObj := List (String × Jsonv)

/-- `GitHubContext` from `src/common/types.ts`; `matrix?: Record<string, unknown>`. -/
structure GitHubContext where
  owner : String
  repo : String
  workflow : String
  runId : String
  job : String
  matrix : Option MatrixObj
deriving DecidableEq

/-- `CheckpointMetadata` from `src/common/types.ts`. -/
structure CheckpointMetadata where
  runId : String
  jobKey : String
  stepKey : String
deriving DecidableEq

def MAX_SPRITE_NAME_LENGTH : Nat := 128

def HASH_LENGTH : Nat := 8

/-- One character of `JSON.stringify` string escaping. -/
def jsonEscapeChar (c : Char) : List Char :=
  if c = '"' then ['\\', '"']
  else if c = '\\' then ['\\', '\\']
  else if c = '\n' then ['\\', 'n']
  else if c = '\t' then ['\\', 't']
  else if c = '\r' then ['\\', 'r']
  else if c.toNat = 8 then ['\\', 'b']
  else if c.toNat = 12 then ['\\', 'f']
  else if c.toNat < 32 then ['\\', 'u', '0', '0', hexDigit (c.toNat / 16), hexDigit c.toNat]
  else [c]

/-- `JSON.stringify` rendering of a string literal. -/
def jsonQuote (s : String) : String := String.mk ('"' :: (s.data.map jsonEscapeChar).flatten ++ ['"'])

/-- `JSON.stringify` rendering of a scalar value. -/
def serializeJsonv : Jsonv → String
  | .str s => jsonQuote s
  | .num n => toString n
  | .bool b => if b then "true" else "false"
  | .null => "null"

/-- `Object.keys(m).sort()`: the object's keys in JS default (lexicographic) sort order. -/
def sortedKeys (m : MatrixObj) : List String := (m.map Prod.fst).insertionSort (· ≤ ·)

/-- JS property lookup `m[k]` (keys of an object are unique). -/
def jsGet (m : MatrixObj) (k : String) : Jsonv :=
  (((m.find? fun p => p.1 == k).map Prod.snd).getD .null)

/-- `JSON.stringify(context.matrix, Object.keys(context.matrix).sort())`:
serialization of the matrix with the sorted key list as replacer, so the
key order of the output is the sorted order. -/
def serializeMatrix (m : MatrixObj) : String :=
  "\x7b" ++ String.intercalate ","
    ((sortedKeys m).map fun k => jsonQuote k ++ ":" ++ serializeJsonv (jsGet m k)) ++ "\x7d"

/-- `shortHash`: first `HASH_LENGTH` chars of the hex SHA-256 digest. -/
def shortHash (input : String) : String := String.mk ((sha256Hex input).data.take HASH_LENGTH)

/-- One character of `.replace(/[^a-z0-9-]/g, '-')`. -/
def replaceDisallowed (c : Char) : Char :=
  if ('a' ≤ c ∧ c ≤ 'z') ∨ ('0' ≤ c ∧ c ≤ '9') ∨ c = '-' then c else '-'

/-- The dash-run replace step: collapse each run of hyphens to a single hyphen. -/
def collapseHyphens : List Char → List Char
  | [] => []
  | [c] => [c]
  | c :: c2 :: rest =>
    if c = '-' ∧ c2 = '-' then collapseHyphens (c2 :: rest) else c :: collapseHyphens (c2 :: rest)

/-- `.replace(/^-|-$/g, '')`: remove one leading and one trailing hyphen. -/
def dropLeadingHyphen (l : List Char) : List Char :=
  match l with
  | '-' :: rest => rest
  | _ => l

def dropTrailingHyphen (l : List Char) : List Char := (dropLeadingHyphen l.reverse).reverse

/-- `normalizeForSpriteName`: lowercase, replace disallowed chars by `-`,
collapse repeated `-`, trim leading/trailing `-`. -/
def normalizeForSpriteName (input : String) : String :=
  String.mk (dropTrailingHyphen (dropLeadingHyphen
    (collapseHyphens ((input.data.map Char.toLower).map replaceDisallowed))))

/-- `context.matrix && Object.keys(context.matrix).length > 0`. -/
def matrixPresent : Option MatrixObj → Bool
  | none => false
  | some m => decide (0 < m.length)

/-- The ordered name parts of `deriveSpriteNameFromContext` before joining. -/
def spriteNameParts (context : GitHubContext) : List String :=
  let base := ["gh", normalizeForSpriteName context.owner, normalizeForSpriteName context.repo,
               normalizeForSpriteName context.workflow, context.runId,
               normalizeForSpriteName context.job]
  match context.matrix with
  | some m => if 0 < m.length then base ++ [shortHash (serializeMatrix m)] else base
  | none => base

/-- `parts.join('-')`: the sprite name before the length cap is applied. -/
def rawSpriteName (context : GitHubContext) : String :=
  String.intercalate "-" (spriteNameParts context)

/-- `deriveSpriteNameFromContext` (identity.ts:38-64). -/
def deriveSpriteNameFromContext (context : GitHubContext) : String :=
  let name := rawSpriteName context
  if MAX_SPRITE_NAME_LENGTH < name.length then
    let hash := shortHash name
    let maxBaseLength := MAX_SPRITE_NAME_LENGTH - hash.length - 1
    String.mk (name.data.take maxBaseLength) ++ "-" ++ hash
  else name

/-- `deriveJobKey` (identity.ts:70-79). -/
def deriveJobKey (context : GitHubContext) : String :=
  match context.matrix with
  | some m =>
    if 0 < m.length then context.job ++ "-" ++ shortHash (serializeMatrix m) else context.job
  | none => context.job

/-- `formatCheckpointComment` (identity.ts:85-91). -/
def formatCheckpointComment (runId jobKey stepKey : String) : String :=
  "ghrun=" ++ runId ++ ";job=" ++ jobKey ++ ";step=" ++ stepKey

/-- JS `comment.match(/key([^;]+)/)` for a literal `key`: scan left to right for
the first position where the literal matches and is followed by at least one
non-`;` character; capture the maximal run of non-`;` characters. -/
def matchKeyVal (key : List Char) : List Char → Option (List Char)
  | [] => none
  | c :: rest =>
    if key.isPrefixOf (c :: rest) then
      let v := ((c :: rest).drop key.length).takeWhile fun ch => ch != ';'
      if v.isEmpty then matchKeyVal key rest else some v
    else matchKeyVal key rest

/-- `parseCheckpointComment` (identity.ts:96-112): falsy input gives null, then
three independent regex searches; null unless all three fields match. -/
def parseCheckpointComment (comment : Option String) : Option CheckpointMetadata :=
  match comment with
  | none => none
  | some c =>
    if c = "" then none
    else
      match matchKeyVal "ghrun=".data c.data, matchKeyVal "job=".data c.data,
            matchKeyVal "step=".data c.data with
      | some r, some j, some s => some ⟨String.mk r, String.mk j, String.mk s⟩
      | _, _, _ => none

/-- A checkpoint as consumed by `findLastCheckpointForJob`: `new Date(create_time).getTime()`
is modelled by its numeric result `createTimeMs`. -/
structure CheckpointEntry where
  id : String
  comment : Option String
  createTimeMs : Nat
deriving DecidableEq

/-- Does a checkpoint's parsed comment match this run and job? -/
def checkpointMatches (runId jobKey : String) (c : CheckpointEntry) : Bool :=
  match parseCheckpointComment c.comment with
  | some metadata => metadata.runId == runId && metadata.jobKey == jobKey
  | none => false

/-- Sort descending by creation time (the JS comparator `b.create_time - a.create_time`,
realised by a stable sort). -/
def sortByCreateTimeDesc (checkpoints : List CheckpointEntry) : List CheckpointEntry :=
  checkpoints.insertionSort fun a b => b.createTimeMs ≤ a.createTimeMs

/-- `findLastCheckpointForJob` (identity.ts:140-157). -/
def findLastCheckpointForJob (checkpoints : List CheckpointEntry) (runId jobKey : String) :
    Option String :=
  ((sortByCreateTimeDesc checkpoints).find? (checkpointMatches runId jobKey)).map (·.id)

/-! ## API client (`src/common/client.ts`) -/

structure ReqInfo where
  method : String
  path : String
deriving DecidableEq

/-- `ApiError` as built by the client: message plus optional HTTP status,
optional network error code, and the request's method/path. -/
structure ApiError where
  message : String
  status : Option Nat
  code : Option String
  req : ReqInfo
deriving DecidableEq

/-- Outcome of one `doRequest` attempt. -/
inductive DoResult (T : Type) where
  | success (value : T)
  | failure (error : ApiError)
deriving DecidableEq

def MAX_RETRIES : Nat := 3

def RETRY_DELAY_MS : Nat := 1000

def TRANSIENT_ERROR_CODES : List Nat := [408, 429, 500, 502, 503, 504]

def NETWORK_ERROR_CODES : List String := ["ECONNRESET", "ETIMEDOUT", "TIMEOUT", "ENOTFOUND"]

/-- `TRANSIENT_ERROR_CODES.includes(apiError.status || 0)`. -/
def isTransientError (e : ApiError) : Bool := TRANSIENT_ERROR_CODES.contains (e.status.getD 0)

/-- `['ECONNRESET','ETIMEDOUT','TIMEOUT','ENOTFOUND'].includes(apiError.code || '')`. -/
def isNetworkError (e : ApiError) : Bool := NETWORK_ERROR_CODES.contains (e.code.getD "")

/-- `SpritesClient.request` (client.ts:499-530). The network is modelled by
`transport`, giving the outcome of the attempt with each retry index; the
returned list records the argument of each `sleep` call, in order. -/
def request {T : Type} (transport : Nat → DoResult T) (skipRetryOn404 : Bool) (retries : Nat) :
    DoResult T × List Nat :=
  match transport retries with
  | .success v => (.success v, [])
  | .failure apiError =>
    if skipRetryOn404 = true ∧ apiError.status = some 404 then (.failure apiError, [])
    else if h : retries < MAX_RETRIES ∧
        (isTransientError apiError = true ∨ isNetworkError apiError = true) then
      let delay := RETRY_DELAY_MS * 2 ^ retries
      let tail := request transport skipRetryOn404 (retries + 1)
      (tail.1, delay :: tail.2)
    else (.failure apiError, [])
termination_by MAX_RETRIES + 1 - retries
decreasing_by
  omega

/-- Parsed NDJSON event of the checkpoint/restore streams
(`{type: "info"|"complete"|"error", data|error, time}`; other types are ignored). -/
inductive StreamEvent where
  | info (data : String)
  | complete (data : String) (time : String)
  | error (error : String)
  | other
deriving DecidableEq

/-- JS regex whitespace class (for `\S`). -/
def isJsWhitespace (c : Char) : Bool :=
  c = ' ' || c = '\t' || c = '\n' || c = '\r' || c.toNat = 11 || c.toNat = 12

/-- Attempt of the regex `Checkpoint (\S+) created` anchored at the head of `l`:
the literal, then a maximal nonempty run of non-whitespace (the capture),
then the literal ` created`. -/
def checkpointPatternAt (l : List Char) : Option (List Char) :=
  if "Checkpoint ".data.isPrefixOf l then
    let rest := l.drop "Checkpoint ".data.length
    let w := rest.takeWhile fun c => !isJsWhitespace c
    if w.isEmpty = false ∧ " created".data.isPrefixOf (rest.drop w.length) then some w else none
  else none

/-- Left-to-right regex search: first position where the pattern matches. -/
def checkpointPatternSearch : List Char → Option (List Char)
  | [] => none
  | c :: rest =>
    match checkpointPatternAt (c :: rest) with
    | some w => some w
    | none => checkpointPatternSearch rest

/-- `event.data.match(/Checkpoint (\S+) created/)`, returning the capture. -/
def extractCheckpointId (data : String) : Option String :=
  (checkpointPatternSearch data.data).map String.mk

/-- `Checkpoint` resource as resolved by `createCheckpoint`. -/
structure Checkpoint where
  id : String
  create_time : String
  comment : Option String
deriving DecidableEq

/-- The data-event loop of `createCheckpoint` (client.ts:186-233): `complete`
events whose data matches the pattern record id and time; an `error` event
settles the promise with a rejection; at end of stream resolve if an id was
captured (truthy), otherwise reject. -/
def createCheckpointEvents (path : String) (comment : Option String) :
    List StreamEvent → String → String → Except ApiError Checkpoint
  | [], checkpointId, createTime =>
    if checkpointId = "" then
      .error ⟨"Failed to parse checkpoint creation response", none, none, ⟨"POST", path⟩⟩
    else .ok ⟨checkpointId, createTime, comment⟩
  | e :: rest, checkpointId, createTime =>
    match e with
    | .info _ => createCheckpointEvents path comment rest checkpointId createTime
    | .complete data time =>
      match extractCheckpointId data with
      | some cid => createCheckpointEvents path comment rest cid time
      | none => createCheckpointEvents path comment rest checkpointId createTime
    | .error msg => .error ⟨msg, none, none, ⟨"POST", path⟩⟩
    | .other => createCheckpointEvents path comment rest checkpointId createTime

/-- `createCheckpoint` on a response with the given status and event stream. -/
def createCheckpointResponse (path : String) (comment : Option String) (status : Nat)
    (errorBody : String) (events : List StreamEvent) : Except ApiError Checkpoint :=
  if 400 ≤ status then
    .error ⟨"Request failed with status " ++ toString status ++ ": " ++ errorBody,
            some status, none, ⟨"POST", path⟩⟩
  else createCheckpointEvents path comment events "" ""

/-- The data-event loop of `restoreCheckpoint` (client.ts:310-340): an `error`
event rejects; every other event only logs; end of stream resolves. -/
def restoreCheckpointEvents (path : String) : List StreamEvent → Except ApiError Unit
  | [] => .ok ()
  | e :: rest =>
    match e with
    | .error msg => .error ⟨msg, none, none, ⟨"POST", path⟩⟩
    | _ => restoreCheckpointEvents path rest

/-- `restoreCheckpoint` on a response with the given status and event stream. -/
def restoreCheckpointResponse (path : String) (status : Nat) (errorBody : String)
    (events : List StreamEvent) : Except ApiError Unit :=
  if 400 ≤ status then
    .error ⟨"Request failed with status " ++ toString status ++ ": " ++ errorBody,
            some status, none, ⟨"POST", path⟩⟩
  else restoreCheckpointEvents path events

/-- Parsed line of the exec NDJSON stream; a line that fails `JSON.parse`
is carried as `raw` (treated as stdout). -/
inductive ExecEvent where
  | stdout (data : String)
  | stderr (data : String)
  | exit (code : Nat)
  | raw (line : String)
  | other
deriving DecidableEq

structure ExecResult where
  exitCode : Nat
  stdout : String
  stderr : String
deriving DecidableEq

/-- The data-event loop of `execWithStreaming` (client.ts:437-461): accumulate
stdout/stderr, record the exit code (initially 0), resolve at end of stream. -/
def execEvents : List ExecEvent → ExecResult → ExecResult
  | [], acc => acc
  | e :: rest, acc =>
    match e with
    | .stdout d => execEvents rest { acc with stdout := acc.stdout ++ d }
    | .stderr d => execEvents rest { acc with stderr := acc.stderr ++ d }
    | .exit c => execEvents rest { acc with exitCode := c }
    | .raw line => execEvents rest { acc with stdout := acc.stdout ++ line }
    | .other => execEvents rest acc

/-- `execWithStreaming` (client.ts:414-461) on a response with the given
status and event stream. -/
def execWithStreamingResponse (path : String) (status : Nat) (errorBody : String)
    (events : List ExecEvent) : Except ApiError ExecResult :=
  if 400 ≤ status then
    .error ⟨"Request failed with status " ++ toString status ++ ": " ++ errorBody,
            some status, none, ⟨"POST", path⟩⟩
  else .ok (execEvents events ⟨0, "", ""⟩)

/-- Is this stream event an `error` event? -/
def isErrorEvent : StreamEvent → Bool
  | .error _ => true
  | _ => false

/-- Does this stream event capture a checkpoint id (a `complete` event whose
data matches the pattern)? -/
def completeCaptures : StreamEvent → Bool
  | .complete d _ => (extractCheckpointId d).isSome
  | _ => false

/-- Is this exec event an `exit` event? -/
def isExitEvent : ExecEvent → Bool
  | .exit _ => true
  | _ => false

/-- Spec-side notion of a comment "containing the field `key`": some position
is followed by the key literal and at least one non-`;` value character. -/
def hasFieldPattern (key l : List Char) : Prop :=
  ∃ a v b, l = a ++ key ++ v ++ b ∧ v ≠ [] ∧ ∀ c ∈ v, c ≠ ';'

/-- The exact inverse grammar of `formatCheckpointComment`, as the spec
describes it. -/
def exactCommentForm (w : String) : Prop :=
  ∃ runId jobKey stepKey : String, w = formatCheckpointComment runId jobKey stepKey

/-! ## Client-layer lemmas and claims -/

theorem execEvents_exitCode (events : List ExecEvent) (acc : ExecResult)
    (h : ∀ e ∈ events, isExitEvent e = false) :
    (execEvents events acc).exitCode = acc.exitCode := by
  induction events generalizing acc with
  | nil => rfl
  | cons e rest ih =>
    have he := h e (List.mem_cons_self e rest)
    have hrest : ∀ x ∈ rest, isExitEvent x = false := fun x hx => h x (List.mem_cons_of_mem e hx)
    cases e with
    | stdout d => exact ih _ hrest
    | stderr d => exact ih _ hrest
    | exit c => simp [isExitEvent] at he
    | raw l => exact ih _ hrest
    | other => exact ih _ hrest

/-- Claim C10: if the streaming response of exec closes without having emitted
any `exit` event, exec resolves successfully with exitCode 0 and the
stdout/stderr accumulated so far, rather than raising a stream-protocol
error. -/
theorem exec_no_exit_resolves_zero (path errorBody : String) (status : Nat)
    (events : List ExecEvent) (hstatus : status < 400)
    (hnoexit : ∀ e ∈ events, isExitEvent e = false) :
    execWithStreamingResponse path status errorBody events =
      .ok (execEvents events ⟨0, "", ""⟩) ∧
    (execEvents events ⟨0, "", ""⟩).exitCode = 0 := by
  constructor
  · simp [execWithStreamingResponse, Nat.not_le.mpr hstatus]
  · exact execEvents_exitCode events _ hnoexit

/-- Witness for C10: a stream with only stdout events (and the empty stream)
resolves with exit code 0. -/
theorem exec_no_exit_resolves_zero_witness :
    execWithStreamingResponse "/v1/sprites/s/exec" 200 "" [.stdout "Hello ", .stdout "World\n"] =
      .ok ⟨0, "Hello World\n", ""⟩ ∧
    execWithStreamingResponse "/v1/sprites/s/exec" 200 "" [] = .ok ⟨0, "", ""⟩ := by
  refine ⟨?_, ?_⟩
  · exact (exec_no_exit_resolves_zero "/v1/sprites/s/exec" "" 200
      [.stdout "Hello ", .stdout "World\n"] (by decide) (by decide)).1
  · exact (exec_no_exit_resolves_zero "/v1/sprites/s/exec" "" 200 [] (by decide)
      (by decide)).1

theorem restoreCheckpointEvents_no_error (path : String) (events : List StreamEvent)
    (h : ∀ e ∈ events, isErrorEvent e = false) :
    restoreCheckpointEvents path events = .ok () := by
  induction events with
  | nil => rfl
  | cons e rest ih =>
    have he := h e (List.mem_cons_self e rest)
    have hrest : ∀ x ∈ rest, isErrorEvent x = false := fun x hx => h x (List.mem_cons_of_mem e hx)
    cases e with
    | info d => exact ih hrest
    | complete d t => exact ih hrest
    | error m => simp [isErrorEvent] at he
    | other => exact ih hrest

/-- Claim C3 (amended): `restoreCheckpoint` fails on an explicit `error` event
with that event's message; but when the stream ends without any `error`
event it resolves successfully, whether or not a `complete` event was ever
emitted — the code places no requirement on a terminal `complete` event. -/
theorem restoreCheckpoint_stream_behaviour (path errorBody : String) (status : Nat)
    (events : List StreamEvent) (hstatus : status < 400) :
    ((∀ e ∈ events, isErrorEvent e = false) →
      restoreCheckpointResponse path status errorBody events = .ok ()) ∧
    (∀ pre msg post, events = pre ++ .error msg :: post →
      (∀ e ∈ pre, isErrorEvent e = false) →
      restoreCheckpointResponse path status errorBody events =
        .error ⟨msg, none, none, ⟨"POST", path⟩⟩) := by
  have hlt : ¬ 400 ≤ status := Nat.not_le.mpr hstatus
  constructor
  · intro h
    simp only [restoreCheckpointResponse, if_neg hlt]
    exact restoreCheckpointEvents_no_error path events h
  · intro pre msg post hsplit hpre
    simp only [restoreCheckpointResponse, if_neg hlt, hsplit]
    clear hsplit
    induction pre with
    | nil => rfl
    | cons e rest ih =>
      have he := hpre e (List.mem_cons_self e rest)
      have hrest : ∀ x ∈ rest, isErrorEvent x = false :=
        fun x hx => hpre x (List.mem_cons_of_mem e hx)
      cases e with
      | info d => exact ih hrest
      | complete d t => exact ih hrest
      | error m => simp [isErrorEvent] at he
      | other => exact ih hrest

/-- Witness for the amended C3. -/
theorem restoreCheckpoint_stream_behaviour_witness :
    restoreCheckpointResponse "/p" 200 "" [.info "a", .complete "done" "t"] = .ok () ∧
    restoreCheckpointResponse "/p" 200 "" [.info "a", .error "boom", .complete "done" "t"] =
      .error ⟨"boom", none, none, ⟨"POST", "/p"⟩⟩ := by
  refine ⟨?_, ?_⟩
  · exact (restoreCheckpoint_stream_behaviour "/p" "" 200 [.info "a", .complete "done" "t"]
      (by decide)).1 (by decide)
  · exact (restoreCheckpoint_stream_behaviour "/p" "" 200
      [.info "a", .error "boom", .complete "done" "t"] (by decide)).2
      [.info "a"] "boom" [.complete "done" "t"] rfl (by decide)

/-- Counterexample to C3 as stated: a restore stream that closes with no
events at all — in particular without any terminal `complete` event —
resolves successfully instead of failing with a stream-protocol error. -/
theorem restoreCheckpoint_empty_stream_resolves :
    restoreCheckpointResponse "/v1/sprites/s/checkpoints/c/restore" 200 "" [] = .ok () := rfl

theorem checkpointPatternAt_some_ne_nil (l : List Char) (w : List Char)
    (h : checkpointPatternAt l = some w) : w ≠ [] := by
  unfold checkpointPatternAt at h
  split at h
  · dsimp only at h
    split at h
    · rename_i hcond
      cases h
      simpa using hcond.1
    · cases h
  · cases h

theorem checkpointPatternSearch_ne_nil (l w : List Char)
    (h : checkpointPatternSearch l = some w) : w ≠ [] := by
  induction l with
  | nil => simp [checkpointPatternSearch] at h
  | cons c rest ih =>
    rw [checkpointPatternSearch] at h
    cases hat : checkpointPatternAt (c :: rest) with
    | none => rw [hat] at h; exact ih h
    | some w' =>
      rw [hat] at h
      cases h
      exact checkpointPatternAt_some_ne_nil _ _ hat

theorem extractCheckpointId_ne_empty (d cid : String)
    (h : extractCheckpointId d = some cid) : cid ≠ "" := by
  unfold extractCheckpointId at h
  cases hs : checkpointPatternSearch d.data with
  | none => rw [hs] at h; cases h
  | some w =>
    rw [hs] at h
    cases h
    have hw := checkpointPatternSearch_ne_nil _ _ hs
    intro hmk
    exact hw (congrArg String.data hmk)

theorem createCheckpointEvents_error_event (path : String) (comment : Option String)
    (pre : List StreamEvent) (msg : String) (post : List StreamEvent)
    (hpre : ∀ e ∈ pre, isErrorEvent e = false) :
    ∀ checkpointId createTime,
      createCheckpointEvents path comment (pre ++ .error msg :: post) checkpointId createTime =
        .error ⟨msg, none, none, ⟨"POST", path⟩⟩ := by
  induction pre with
  | nil => intro checkpointId createTime; rfl
  | cons e rest ih =>
    intro checkpointId createTime
    have he := hpre e (List.mem_cons_self e rest)
    have hrest : ∀ x ∈ rest, isErrorEvent x = false := fun x hx => hpre x (List.mem_cons_of_mem e hx)
    cases e with
    | info d => exact ih hrest _ _
    | complete d t =>
      rw [List.cons_append, createCheckpointEvents]
      cases extractCheckpointId d with
      | none => exact ih hrest _ _
      | some cid => exact ih hrest _ _
    | error m => simp [isErrorEvent] at he
    | other => exact ih hrest _ _

theorem createCheckpointEvents_tail_keeps (path : String) (comment : Option String)
    (post : List StreamEvent) (cid t : String) (hcid : cid ≠ "")
    (hnoerr : ∀ e ∈ post, isErrorEvent e = false)
    (hnocap : ∀ e ∈ post, completeCaptures e = false) :
    createCheckpointEvents path comment post cid t = .ok ⟨cid, t, comment⟩ := by
  induction post with
  | nil => simp [createCheckpointEvents, hcid]
  | cons e rest ih =>
    have he := hnoerr e (List.mem_cons_self e rest)
    have hc := hnocap e (List.mem_cons_self e rest)
    have hrest : ∀ x ∈ rest, isErrorEvent x = false :=
      fun x hx => hnoerr x (List.mem_cons_of_mem e hx)
    have hrestc : ∀ x ∈ rest, completeCaptures x = false :=
      fun x hx => hnocap x (List.mem_cons_of_mem e hx)
    cases e with
    | info d => exact ih hrest hrestc
    | complete d t' =>
      rw [createCheckpointEvents]
      cases hx : extractCheckpointId d with
      | none => exact ih hrest hrestc
      | some c => simp [completeCaptures, hx] at hc
    | error m => simp [isErrorEvent] at he
    | other => exact ih hrest hrestc

theorem createCheckpointEvents_walk (path : String) (comment : Option String)
    (pre rest : List StreamEvent) (hpre : ∀ e ∈ pre, isErrorEvent e = false) :
    ∀ checkpointId createTime, ∃ id' t',
      createCheckpointEvents path comment (pre ++ rest) checkpointId createTime =
        createCheckpointEvents path comment rest id' t' := by
  induction pre with
  | nil => intro checkpointId createTime; exact ⟨checkpointId, createTime, rfl⟩
  | cons e p ih =>
    intro checkpointId createTime
    have he := hpre e (List.mem_cons_self e p)
    have hp : ∀ x ∈ p, isErrorEvent x = false := fun x hx => hpre x (List.mem_cons_of_mem e hx)
    cases e with
    | info d => exact ih hp _ _
    | complete d t =>
      rw [List.cons_append, createCheckpointEvents]
      cases extractCheckpointId d with
      | none => exact ih hp _ _
      | some cid => exact ih hp _ _
    | error m => simp [isErrorEvent] at he
    | other => exact ih hp _ _

theorem createCheckpointEvents_no_capture (path : String) (comment : Option String)
    (events : List StreamEvent)
    (hnoerr : ∀ e ∈ events, isErrorEvent e = false)
    (hnocap : ∀ e ∈ events, completeCaptures e = false) :
    createCheckpointEvents path comment events "" "" =
      .error ⟨"Failed to parse checkpoint creation response", none, none, ⟨"POST", path⟩⟩ := by
  induction events with
  | nil => rfl
  | cons e rest ih =>
    have he := hnoerr e (List.mem_cons_self e rest)
    have hc := hnocap e (List.mem_cons_self e rest)
    have hrest : ∀ x ∈ rest, isErrorEvent x = false :=
      fun x hx => hnoerr x (List.mem_cons_of_mem e hx)
    have hrestc : ∀ x ∈ rest, completeCaptures x = false :=
      fun x hx => hnocap x (List.mem_cons_of_mem e hx)
    cases e with
    | info d => exact ih hrest hrestc
    | complete d t' =>
      rw [createCheckpointEvents]
      cases hx : extractCheckpointId d with
      | none => exact ih hrest hrestc
      | some c => simp [completeCaptures, hx] at hc
    | error m => simp [isErrorEvent] at he
    | other => exact ih hrest hrestc

/-- Claim C2: createCheckpoint resolves with the id captured from a `complete`
event whose data matches `Checkpoint (\S+) created`; an `error` event rejects
the operation with that event's message (the first error event settles the
promise); and a stream that closes with no parseable checkpoint id rejects
rather than resolving. -/
theorem createCheckpoint_stream (path errorBody : String) (comment : Option String)
    (status : Nat) (events : List StreamEvent) (hstatus : status < 400) :
    (∀ pre msg post, events = pre ++ .error msg :: post →
      (∀ e ∈ pre, isErrorEvent e = false) →
      createCheckpointResponse path comment status errorBody events =
        .error ⟨msg, none, none, ⟨"POST", path⟩⟩) ∧
    (∀ pre d t post cid, events = pre ++ .complete d t :: post →
      (∀ e ∈ events, isErrorEvent e = false) →
      extractCheckpointId d = some cid →
      (∀ e ∈ post, completeCaptures e = false) →
      createCheckpointResponse path comment status errorBody events = .ok ⟨cid, t, comment⟩) ∧
    ((∀ e ∈ events, isErrorEvent e = false) →
      (∀ e ∈ events, completeCaptures e = false) →
      createCheckpointResponse path comment status errorBody events =
        .error ⟨"Failed to parse checkpoint creation response", none, none, ⟨"POST", path⟩⟩) := by
  have hlt : ¬ 400 ≤ status := Nat.not_le.mpr hstatus
  refine ⟨?_, ?_, ?_⟩
  · intro pre msg post hsplit hpre
    simp only [createCheckpointResponse, if_neg hlt, hsplit]
    exact createCheckpointEvents_error_event path comment pre msg post hpre _ _
  · intro pre d t post cid hsplit hnoerr hcid hnocap
    simp only [createCheckpointResponse, if_neg hlt, hsplit]
    have hpre : ∀ e ∈ pre, isErrorEvent e = false := by
      intro e hein
      exact hnoerr e (by rw [hsplit]; exact List.mem_append_left _ hein)
    have hpost : ∀ e ∈ post, isErrorEvent e = false := by
      intro e hein
      exact hnoerr e (by
        rw [hsplit]
        exact List.mem_append_right _ (List.mem_cons_of_mem _ hein))
    obtain ⟨id', t', hwalk⟩ := createCheckpointEvents_walk path comment pre
      (.complete d t :: post) hpre "" ""
    rw [hwalk, createCheckpointEvents, hcid]
    exact createCheckpointEvents_tail_keeps path comment post cid t
      (extractCheckpointId_ne_empty d cid hcid) hpost hnocap
  · intro hnoerr hnocap
    simp only [createCheckpointResponse, if_neg hlt]
    exact createCheckpointEvents_no_capture path comment events hnoerr hnocap

/-- Witness for C2: the spec's example stream (two info events then
`complete` with data "Checkpoint v8 created") resolves to id "v8"; an error
event rejects with its message; an info-only stream rejects. -/
theorem createCheckpoint_stream_witness :
    createCheckpointResponse "/p" (some "cmt") 200 ""
      [.info "a", .info "b", .complete "Checkpoint v8 created" "t1"] =
      .ok ⟨"v8", "t1", some "cmt"⟩ ∧
    createCheckpointResponse "/p" (some "cmt") 200 "" [.info "a", .error "boom"] =
      .error ⟨"boom", none, none, ⟨"POST", "/p"⟩⟩ ∧
    createCheckpointResponse "/p" (some "cmt") 200 "" [.info "a", .info "b"] =
      .error ⟨"Failed to parse checkpoint creation response", none, none, ⟨"POST", "/p"⟩⟩ := by
  refine ⟨?_, ?_, ?_⟩
  · exact (createCheckpoint_stream "/p" "" (some "cmt") 200
      [.info "a", .info "b", .complete "Checkpoint v8 created" "t1"] (by decide)).2.1
      [.info "a", .info "b"] "Checkpoint v8 created" "t1" [] "v8" rfl (by decide) (by decide)
      (by decide)
  · exact (createCheckpoint_stream "/p" "" (some "cmt") 200 [.info "a", .error "boom"]
      (by decide)).1 [.info "a"] "boom" [] rfl (by decide)
  · exact (createCheckpoint_stream "/p" "" (some "cmt") 200 [.info "a", .info "b"]
      (by decide)).2.2 (by decide) (by decide)

theorem request_success {T : Type} (t : Nat → DoResult T) (skip : Bool) (retries : Nat) (v : T)
    (h : t retries = .success v) : request t skip retries = (.success v, []) := by
  conv_lhs => unfold request
  rw [h]

theorem request_failure_skip404 {T : Type} (t : Nat → DoResult T) (retries : Nat) (e : ApiError)
    (h : t retries = .failure e) (h404 : e.status = some 404) :
    request t true retries = (.failure e, []) := by
  conv_lhs => unfold request
  rw [h]
  dsimp only
  rw [if_pos ⟨rfl, h404⟩]

theorem request_failure_no_retry {T : Type} (t : Nat → DoResult T) (skip : Bool) (retries : Nat)
    (e : ApiError) (h : t retries = .failure e)
    (hcond : ¬(retries < MAX_RETRIES ∧ (isTransientError e = true ∨ isNetworkError e = true))) :
    request t skip retries = (.failure e, []) := by
  conv_lhs => unfold request
  rw [h]
  dsimp only
  by_cases h404 : skip = true ∧ e.status = some 404
  · rw [if_pos h404]
  · rw [if_neg h404, dif_neg hcond]

theorem request_failure_retry {T : Type} (t : Nat → DoResult T) (skip : Bool) (retries : Nat)
    (e : ApiError) (h : t retries = .failure e)
    (hskip : ¬(skip = true ∧ e.status = some 404))
    (hlt : retries < MAX_RETRIES)
    (hretry : isTransientError e = true ∨ isNetworkError e = true) :
    request t skip retries =
      ((request t skip (retries + 1)).1,
        RETRY_DELAY_MS * 2 ^ retries :: (request t skip (retries + 1)).2) := by
  conv_lhs => unfold request
  rw [h]
  dsimp only
  rw [if_neg hskip, dif_pos ⟨hlt, hretry⟩]

/-- Claim C1: transient HTTP statuses (408/429/500/502/503/504) and the
network error codes are retried after a delay of `RETRY_DELAY_MS * 2^attempt`
up to `MAX_RETRIES` additional attempts, after which the last error is
re-raised; any other failure is raised immediately with no retry; with the
404-retry-suppression flag a 404 is raised immediately with zero retries;
and a 503 followed by a success returns the success after exactly one retry. -/
theorem request_retry_policy :
    (∀ (T : Type) (t : Nat → DoResult T) (e : ApiError) (skip : Bool),
      t 0 = .failure e → isTransientError e = false → isNetworkError e = false →
      request t skip 0 = (.failure e, [])) ∧
    (∀ (T : Type) (t : Nat → DoResult T) (e : ApiError),
      t 0 = .failure e → e.status = some 404 →
      request t true 0 = (.failure e, [])) ∧
    (∀ (T : Type) (t : Nat → DoResult T) (e : Nat → ApiError) (skip : Bool),
      (∀ i, i ≤ MAX_RETRIES → t i = .failure (e i)) →
      (∀ i, i ≤ MAX_RETRIES → (isTransientError (e i) = true ∨ isNetworkError (e i) = true)) →
      (∀ i, ¬(skip = true ∧ (e i).status = some 404)) →
      request t skip 0 =
        (.failure (e MAX_RETRIES),
          [RETRY_DELAY_MS * 2 ^ 0, RETRY_DELAY_MS * 2 ^ 1, RETRY_DELAY_MS * 2 ^ 2])) ∧
    (∀ (T : Type) (t : Nat → DoResult T) (e : ApiError) (skip : Bool) (v : T),
      t 0 = .failure e → e.status = some 503 → t 1 = .success v →
      request t skip 0 = (.success v, [RETRY_DELAY_MS * 2 ^ 0])) := by
  refine ⟨?_, ?_, ?_, ?_⟩
  · intro T t e skip h0 htr hnet
    exact request_failure_no_retry t skip 0 e h0 (by simp [htr, hnet])
  · intro T t e h0 h404
    exact request_failure_skip404 t 0 e h0 h404
  · intro T t e skip ht hretry hskip
    have h0 := request_failure_retry t skip 0 (e 0) (ht 0 (by decide)) (hskip 0)
      (by decide) (hretry 0 (by decide))
    have h1 := request_failure_retry t skip 1 (e 1) (ht 1 (by decide)) (hskip 1)
      (by decide) (hretry 1 (by decide))
    have h2 := request_failure_retry t skip 2 (e 2) (ht 2 (by decide)) (hskip 2)
      (by decide) (hretry 2 (by decide))
    have h3 := request_failure_no_retry t skip 3 (e 3) (ht 3 (by decide))
      (by intro hx; exact absurd hx.1 (by decide))
    rw [h0, h1, h2, h3]
    rfl
  · intro T t e skip v h0 h503 h1
    have hskip : ¬(skip = true ∧ e.status = some 404) := by
      rintro ⟨-, hx⟩
      rw [h503] at hx
      exact absurd (Option.some.inj hx) (by decide)
    have hretry : isTransientError e = true ∨ isNetworkError e = true := by
      left
      simp [isTransientError, h503, TRANSIENT_ERROR_CODES]
    have hstep := request_failure_retry t skip 0 e h0 hskip (by decide) hretry
    rw [hstep, request_success t skip 1 v h1]

/-- Witness for C1: concrete transports exercising the four behaviours. -/
theorem request_retry_policy_witness :
    request (fun _ => (.failure ⟨"Bad Request", some 400, none, ⟨"GET", "/sprites/x"⟩⟩ :
      DoResult String)) false 0 =
      (.failure ⟨"Bad Request", some 400, none, ⟨"GET", "/sprites/x"⟩⟩, []) ∧
    request (fun _ => (.failure ⟨"Not Found", some 404, none, ⟨"GET", "/sprites/x"⟩⟩ :
      DoResult String)) true 0 =
      (.failure ⟨"Not Found", some 404, none, ⟨"GET", "/sprites/x"⟩⟩, []) ∧
    request (fun _ => (.failure ⟨"Server Error", some 500, none, ⟨"GET", "/sprites/x"⟩⟩ :
      DoResult String)) false 0 =
      (.failure ⟨"Server Error", some 500, none, ⟨"GET", "/sprites/x"⟩⟩, [1000, 2000, 4000]) ∧
    request (fun i => if i = 0 then
        (.failure ⟨"Service Unavailable", some 503, none, ⟨"GET", "/sprites/x"⟩⟩ :
          DoResult String)
      else .success "body") false 0 = (.success "body", [1000]) := by
  refine ⟨?_, ?_, ?_, ?_⟩
  · exact request_retry_policy.1 String _ _ false rfl (by decide) (by decide)
  · exact request_retry_policy.2.1 String _ _ rfl rfl
  · exact request_retry_policy.2.2.1 String _
      (fun _ => ⟨"Server Error", some 500, none, ⟨"GET", "/sprites/x"⟩⟩) false
      (fun i _ => rfl) (fun i _ => Or.inl rfl) (by simp)
  · exact request_retry_policy.2.2.2 String _ _ false "body" rfl rfl rfl

/-! ## Identity-engine lemmas and claims -/

theorem isPrefixOf_eq_true_iff {l₁ l₂ : List Char} :
    l₁.isPrefixOf l₂ = true ↔ ∃ t, l₂ = l₁ ++ t := by
  induction l₁ generalizing l₂ with
  | nil => simp [List.isPrefixOf]
  | cons a as ih =>
    cases l₂ with
    | nil => simp [List.isPrefixOf]
    | cons b bs =>
      simp only [List.isPrefixOf, Bool.and_eq_true, beq_iff_eq, ih, List.cons_append,
        List.cons.injEq]
      constructor
      · rintro ⟨rfl, t, rfl⟩
        exact ⟨t, rfl, rfl⟩
      · rintro ⟨t, rfl, rfl⟩
        exact ⟨rfl, t, rfl⟩

theorem takeWhile_append_all {p : Char → Bool} {v t : List Char} (h : ∀ c ∈ v, p c = true) :
    (v ++ t).takeWhile p = v ++ t.takeWhile p := by
  induction v with
  | nil => rfl
  | cons c cs ih =>
    have hc := h c (List.mem_cons_self c cs)
    simp [List.takeWhile_cons, hc, ih fun x hx => h x (List.mem_cons_of_mem _ hx)]

theorem matchKeyVal_hit (k : Char) (ks v tail : List Char) (hv : v ≠ [])
    (hvc : ∀ c ∈ v, c ≠ ';') (htail : tail.takeWhile (fun ch => ch != ';') = []) :
    matchKeyVal (k :: ks) ((k :: ks) ++ v ++ tail) = some v := by
  have hshape : (k :: ks) ++ v ++ tail = k :: (ks ++ (v ++ tail)) := by simp
  rw [hshape, matchKeyVal]
  have hpre : ((k :: ks).isPrefixOf (k :: (ks ++ (v ++ tail)))) = true :=
    isPrefixOf_eq_true_iff.mpr ⟨v ++ tail, by simp⟩
  rw [if_pos hpre]
  dsimp only
  have hdrop : (k :: (ks ++ (v ++ tail))).drop (k :: ks).length = v ++ tail := by
    have : k :: (ks ++ (v ++ tail)) = (k :: ks) ++ (v ++ tail) := by simp
    rw [this]
    exact List.drop_left _ _
  rw [hdrop, takeWhile_append_all fun c hc => by simp [hvc c hc], htail, List.append_nil,
    if_neg (by simp [hv])]

theorem no_key_occurrence (kpre lpre r : List Char)
    (h1 : '=' ∉ kpre) (h2 : '=' ∉ lpre) (h3 : '=' ∉ r) (h4 : ¬ kpre <:+ lpre) :
    ¬ ∃ a b, lpre ++ '=' :: r = a ++ (kpre ++ ['=']) ++ b := by
  rintro ⟨a, b, heq⟩
  have heq' : lpre ++ '=' :: r = (a ++ kpre) ++ '=' :: b := by
    rw [heq]; simp
  have hcnt := congrArg (List.count '=') heq'
  rw [List.count_append, List.count_append, List.count_cons_self, List.count_cons_self] at hcnt
  have hkp : List.count '=' kpre = 0 := List.count_eq_zero.mpr h1
  have hlp : List.count '=' lpre = 0 := List.count_eq_zero.mpr h2
  have hr : List.count '=' r = 0 := List.count_eq_zero.mpr h3
  have ha : List.count '=' a = 0 := by
    rw [List.count_append] at hcnt
    omega
  have hamem : '=' ∉ a := List.count_eq_zero.mp ha
  have htw := congrArg (List.takeWhile fun c => c != '=') heq'
  have hstop : ∀ x : List Char, ('=' :: x).takeWhile (fun c => c != '=') = [] := by
    intro x
    simp [List.takeWhile_cons]
  rw [takeWhile_append_all (fun c hc => by
      have hne : c ≠ '=' := fun h => h2 (h ▸ hc)
      simp [hne]), hstop,
    takeWhile_append_all (v := a ++ kpre) (fun c hc => by
      rcases List.mem_append.mp hc with hca | hck
      · have hne : c ≠ '=' := fun h => hamem (h ▸ hca)
        simp [hne]
      · have hne : c ≠ '=' := fun h => h1 (h ▸ hck)
        simp [hne]), hstop] at htw
  simp only [List.append_nil] at htw
  exact h4 ⟨a, htw.symm⟩

theorem matchKeyVal_skip (k : Char) (ks : List Char) (seg rest : List Char)
    (hks : ';' ∉ k :: ks) (hnocc : ¬ ∃ a b, seg = a ++ (k :: ks) ++ b) (hseg : ';' ∉ seg) :
    matchKeyVal (k :: ks) (seg ++ ';' :: rest) = matchKeyVal (k :: ks) rest := by
  induction seg with
  | nil =>
    rw [List.nil_append, matchKeyVal]
    have hguard : ((k :: ks).isPrefixOf (';' :: rest)) ≠ true := by
      intro hp
      obtain ⟨t, ht⟩ := isPrefixOf_eq_true_iff.mp hp
      rw [List.cons_append] at ht
      injection ht with hk _
      cases hk
      exact hks (List.mem_cons_self _ _)
    rw [if_neg hguard]
  | cons c cs ih =>
    rw [List.cons_append, matchKeyVal]
    have hguard : ((k :: ks).isPrefixOf (c :: (cs ++ ';' :: rest))) ≠ true := by
      intro hp
      obtain ⟨t, ht⟩ := isPrefixOf_eq_true_iff.mp hp
      have ht' : (c :: cs) ++ ';' :: rest = (k :: ks) ++ t := by simpa using ht
      by_cases hlen : (k :: ks).length ≤ (c :: cs).length
      · have htake := congrArg (List.take (k :: ks).length) ht'
        rw [List.take_left, List.take_append_eq_append_take,
          Nat.sub_eq_zero_of_le hlen, List.take_zero, List.append_nil] at htake
        refine hnocc ⟨[], (c :: cs).drop (k :: ks).length, ?_⟩
        rw [List.nil_append]
        conv_lhs => rw [← List.take_append_drop (k :: ks).length (c :: cs)]
        rw [htake]
      · have htake := congrArg (List.take (k :: ks).length) ht'
        rw [List.take_left, List.take_append_eq_append_take] at htake
        obtain ⟨m, hm⟩ : ∃ m, (k :: ks).length - (c :: cs).length = m + 1 :=
          ⟨(k :: ks).length - (c :: cs).length - 1, by omega⟩
        rw [hm, List.take_succ_cons] at htake
        exact hks (htake ▸ List.mem_append_right _ (List.mem_cons_self ..))
    rw [if_neg hguard]
    have hnocc' : ¬ ∃ a b, cs = a ++ (k :: ks) ++ b := by
      rintro ⟨a, b, hab⟩
      exact hnocc ⟨c :: a, b, by simp [hab]⟩
    exact ih hnocc' fun hx => hseg (List.mem_cons_of_mem _ hx)

theorem format_data_shape_run (runId jobKey stepKey : String) :
    (formatCheckpointComment runId jobKey stepKey).data =
      "ghrun=".data ++ (runId.data ++ (';' :: ("job=".data ++ (jobKey.data ++
        (';' :: ("step=".data ++ stepKey.data)))))) := by
  show ("ghrun=" ++ runId ++ ";job=" ++ jobKey ++ ";step=" ++ stepKey).data = _
  simp only [String.data_append, List.append_assoc]
  rfl

theorem format_data_shape_job (runId jobKey stepKey : String) :
    (formatCheckpointComment runId jobKey stepKey).data =
      ("ghrun".data ++ '=' :: runId.data) ++ ';' :: ("job=".data ++ (jobKey.data ++
        (';' :: ("step=".data ++ stepKey.data)))) := by
  rw [format_data_shape_run]
  have hg : "ghrun=".data = "ghrun".data ++ ['='] := rfl
  rw [hg]
  simp only [List.append_assoc, List.cons_append, List.nil_append]

theorem format_data_shape_step (runId jobKey stepKey : String) :
    (formatCheckpointComment runId jobKey stepKey).data =
      ("ghrun".data ++ '=' :: runId.data) ++ ';' :: (("job".data ++ '=' :: jobKey.data) ++
        ';' :: ("step=".data ++ stepKey.data)) := by
  rw [format_data_shape_job]
  have hjb : "job=".data = "job".data ++ ['='] := rfl
  rw [hjb]
  simp only [List.append_assoc, List.cons_append, List.nil_append]

theorem format_data_ne_nil (runId jobKey stepKey : String) :
    (formatCheckpointComment runId jobKey stepKey).data ≠ [] := by
  rw [format_data_shape_run]
  intro hcontra
  rw [List.append_eq_nil] at hcontra
  exact absurd hcontra.1 (by decide)

/-- Claim C4 (amended): for all nonempty runId/jobKey/stepKey containing
neither `;` nor `=`, parsing the formatted checkpoint comment returns exactly
the original metadata (the round trip fails for empty fields, since the
parser's `[^;]+` requires at least one value character). -/
theorem parse_format_roundTrip (runId jobKey stepKey : String)
    (h1 : runId.data ≠ []) (h2 : jobKey.data ≠ []) (h3 : stepKey.data ≠ [])
    (hr : ∀ c ∈ runId.data, c ≠ ';' ∧ c ≠ '=')
    (hj : ∀ c ∈ jobKey.data, c ≠ ';' ∧ c ≠ '=')
    (hs : ∀ c ∈ stepKey.data, c ≠ ';' ∧ c ≠ '=') :
    parseCheckpointComment (some (formatCheckpointComment runId jobKey stepKey)) =
      some ⟨runId, jobKey, stepKey⟩ := by
  have hseg1 : ';' ∉ "ghrun".data ++ '=' :: runId.data := by
    intro hmem
    rcases List.mem_append.mp hmem with hx | hx
    · exact absurd hx (by decide)
    · rcases List.mem_cons.mp hx with hx' | hx'
      · exact absurd hx' (by decide)
      · exact (hr ';' hx').1 rfl
  have hseg2 : ';' ∉ "job".data ++ '=' :: jobKey.data := by
    intro hmem
    rcases List.mem_append.mp hmem with hx | hx
    · exact absurd hx (by decide)
    · rcases List.mem_cons.mp hx with hx' | hx'
      · exact absurd hx' (by decide)
      · exact (hj ';' hx').1 rfl
  have hreq : '=' ∉ runId.data := fun hmem => (hr '=' hmem).2 rfl
  have hjeq : '=' ∉ jobKey.data := fun hmem => (hj '=' hmem).2 rfl
  have hA : matchKeyVal "ghrun=".data (formatCheckpointComment runId jobKey stepKey).data =
      some runId.data := by
    rw [format_data_shape_run]
    exact matchKeyVal_hit 'g' "hrun=".data runId.data _ h1 (fun c hc => (hr c hc).1) rfl
  have hno2 : ¬ ∃ a b, ("ghrun".data ++ '=' :: runId.data) = a ++ "job=".data ++ b := by
    rintro ⟨a, b, hx⟩
    refine no_key_occurrence "job".data "ghrun".data runId.data (by decide) (by decide)
      hreq (by decide) ⟨a, b, ?_⟩
    have hjb : "job=".data = "job".data ++ ['='] := rfl
    rw [hjb] at hx
    exact hx
  have hB : matchKeyVal "job=".data (formatCheckpointComment runId jobKey stepKey).data =
      some jobKey.data := by
    rw [format_data_shape_job]
    rw [matchKeyVal_skip 'j' "ob=".data _ _ (by decide) (by
      rintro ⟨a, b, hx⟩
      exact hno2 ⟨a, b, hx⟩) hseg1]
    exact matchKeyVal_hit 'j' "ob=".data jobKey.data _ h2 (fun c hc => (hj c hc).1) rfl
  have hno3 : ¬ ∃ a b, ("ghrun".data ++ '=' :: runId.data) = a ++ "step=".data ++ b := by
    rintro ⟨a, b, hx⟩
    refine no_key_occurrence "step".data "ghrun".data runId.data (by decide) (by decide)
      hreq (by decide) ⟨a, b, ?_⟩
    have hst : "step=".data = "step".data ++ ['='] := rfl
    rw [hst] at hx
    exact hx
  have hno4 : ¬ ∃ a b, ("job".data ++ '=' :: jobKey.data) = a ++ "step=".data ++ b := by
    rintro ⟨a, b, hx⟩
    refine no_key_occurrence "step".data "job".data jobKey.data (by decide) (by decide)
      hjeq (by decide) ⟨a, b, ?_⟩
    have hst : "step=".data = "step".data ++ ['='] := rfl
    rw [hst] at hx
    exact hx
  have hC : matchKeyVal "step=".data (formatCheckpointComment runId jobKey stepKey).data =
      some stepKey.data := by
    rw [format_data_shape_step]
    rw [matchKeyVal_skip 's' "tep=".data _ _ (by decide) (by
      rintro ⟨a, b, hx⟩
      exact hno3 ⟨a, b, hx⟩) hseg1]
    rw [matchKeyVal_skip 's' "tep=".data _ _ (by decide) (by
      rintro ⟨a, b, hx⟩
      exact hno4 ⟨a, b, hx⟩) hseg2]
    have := matchKeyVal_hit 's' "tep=".data stepKey.data [] h3 (fun c hc => (hs c hc).1) rfl
    simpa using this
  have hne : ¬ (formatCheckpointComment runId jobKey stepKey = "") := by
    intro hcontra
    exact format_data_ne_nil runId jobKey stepKey (by rw [hcontra])
  simp only [parseCheckpointComment, if_neg hne, hA, hB, hC]

/-- Witness for the amended C4 at concrete metadata values. -/
theorem parse_format_roundTrip_witness :
    parseCheckpointComment (some (formatCheckpointComment "12345" "ci-abc" "install")) =
      some ⟨"12345", "ci-abc", "install"⟩ := by
  exact parse_format_roundTrip "12345" "ci-abc" "install" (by decide) (by decide) (by decide)
    (by decide) (by decide) (by decide)

/-- Counterexample to C4 as stated: the empty runId contains neither `;` nor
`=`, yet the round trip fails — the parser returns null because `ghrun=` is
followed immediately by `;`. -/
theorem parse_format_roundTrip_counterexample :
    parseCheckpointComment (some (formatCheckpointComment "" "b" "c")) = none := by decide

theorem matchKeyVal_some_hasField (key l v : List Char) (h : matchKeyVal key l = some v) :
    hasFieldPattern key l := by
  induction l with
  | nil => simp [matchKeyVal] at h
  | cons c rest ih =>
    rw [matchKeyVal] at h
    by_cases hg : (key.isPrefixOf (c :: rest)) = true
    · rw [if_pos hg] at h
      dsimp only at h
      by_cases he : (((c :: rest).drop key.length).takeWhile fun ch => ch != ';').isEmpty = true
      · rw [if_pos he] at h
        obtain ⟨a, w, b, h1, h2, h3⟩ := ih h
        exact ⟨c :: a, w, b, by simp only [List.cons_append, h1], h2, h3⟩
      · rw [if_neg he] at h
        obtain ⟨t, ht⟩ := isPrefixOf_eq_true_iff.mp hg
        rw [ht, List.drop_left] at h
        cases h
        refine ⟨[], t.takeWhile fun ch => ch != ';', t.dropWhile fun ch => ch != ';',
          ?_, ?_, ?_⟩
        · rw [List.nil_append, List.append_assoc, List.takeWhile_append_dropWhile]
          exact ht
        · rw [ht, List.drop_left] at he
          simpa using he
        · intro x hx
          have := List.mem_takeWhile_imp hx
          simpa using this
    · rw [if_neg hg] at h
      obtain ⟨a, w, b, h1, h2, h3⟩ := ih h
      exact ⟨c :: a, w, b, by simp only [List.cons_append, h1], h2, h3⟩

theorem hasField_matchKeyVal_isSome (k : Char) (ks l : List Char)
    (h : hasFieldPattern (k :: ks) l) : (matchKeyVal (k :: ks) l).isSome = true := by
  obtain ⟨a, v, b, hl, hv, hvc⟩ := h
  induction a generalizing l with
  | nil =>
    rw [List.nil_append] at hl
    subst hl
    have hshape : (k :: ks) ++ v ++ b = k :: (ks ++ (v ++ b)) := by simp
    rw [hshape, matchKeyVal.eq_def]
    dsimp only
    rw [if_pos (isPrefixOf_eq_true_iff.mpr ⟨v ++ b, by simp⟩ :
      ((k :: ks).isPrefixOf (k :: (ks ++ (v ++ b)))) = true)]
    have hdrop : (k :: (ks ++ (v ++ b))).drop (k :: ks).length = v ++ b := by
      have : k :: (ks ++ (v ++ b)) = (k :: ks) ++ (v ++ b) := by simp
      rw [this]
      exact List.drop_left _ _
    rw [hdrop, takeWhile_append_all fun c hc => by simp [hvc c hc]]
    rw [if_neg (by simp [hv])]
    rfl
  | cons c a' ih =>
    have hl' : l = c :: (a' ++ ((k :: ks) ++ (v ++ b))) := by
      rw [hl]; simp
    clear hl
    subst hl'
    rw [matchKeyVal.eq_def]
    dsimp only
    by_cases hg : ((k :: ks).isPrefixOf (c :: (a' ++ ((k :: ks) ++ (v ++ b))))) = true
    · rw [if_pos hg]
      by_cases he : ((((c :: (a' ++ ((k :: ks) ++ (v ++ b)))).drop
          (k :: ks).length).takeWhile fun ch => ch != ';').isEmpty) = true
      · rw [if_pos he]
        exact ih _ (by simp)
      · rw [if_neg he]
        rfl
    · rw [if_neg hg]
      exact ih _ (by simp)

/-- Claim C5 (amended): `parseCheckpointComment` is total and returns null for
undefined input, the empty string, and any string in which one of the three
field patterns does not occur anywhere; but it performs substring searches,
so it also accepts some strings that are not of the exact form
`ghrun=...;job=...;step=...` (see the counterexample). -/
theorem parse_null_cases :
    parseCheckpointComment none = none ∧
    parseCheckpointComment (some "") = none ∧
    (∀ s : String,
      (¬ hasFieldPattern "ghrun=".data s.data ∨ ¬ hasFieldPattern "job=".data s.data ∨
        ¬ hasFieldPattern "step=".data s.data) →
      parseCheckpointComment (some s) = none) := by
  refine ⟨rfl, rfl, ?_⟩
  intro s hmiss
  by_cases hempty : s = ""
  · rw [hempty]
    decide
  · have key_none : ∀ key, ¬ hasFieldPattern key s.data → matchKeyVal key s.data = none := by
      intro key hm
      cases hx : matchKeyVal key s.data with
      | none => rfl
      | some v => exact absurd (matchKeyVal_some_hasField key _ v hx) hm
    simp only [parseCheckpointComment, if_neg hempty]
    rcases hmiss with hm | hm | hm
    · rw [key_none _ hm]
    · rw [key_none _ hm]
      cases matchKeyVal "ghrun=".data s.data <;> rfl
    · rw [key_none _ hm]
      cases matchKeyVal "ghrun=".data s.data <;> cases matchKeyVal "job=".data s.data <;> rfl

/-- Witness for the amended C5: unrelated text is missing the `ghrun=` field
pattern and parses to null. -/
theorem parse_null_cases_witness :
    parseCheckpointComment none = none ∧
    parseCheckpointComment (some "") = none ∧
    parseCheckpointComment (some "hello world") = none := by
  refine ⟨parse_null_cases.1, parse_null_cases.2.1, ?_⟩
  refine parse_null_cases.2.2 "hello world" (Or.inl ?_)
  intro hfield
  have := hasField_matchKeyVal_isSome 'g' "hrun=".data "hello world".data hfield
  rw [show matchKeyVal "ghrun=".data "hello world".data = none from by decide] at this
  simp at this

/-- Counterexample to C5 as stated: a string that is not of the exact
format-grammar form (it has a leading `xx`) is nevertheless parsed
successfully, because the parser searches for the fields anywhere in the
string. -/
theorem parse_not_exact_inverse :
    ¬ exactCommentForm "xxghrun=1;job=2;step=3" ∧
    parseCheckpointComment (some "xxghrun=1;job=2;step=3") = some ⟨"1", "2", "3"⟩ := by
  constructor
  · rintro ⟨r, j, s, h⟩
    have hd := congrArg String.data h
    rw [format_data_shape_run] at hd
    rw [show "xxghrun=1;job=2;step=3".data = 'x' :: "xghrun=1;job=2;step=3".data from rfl] at hd
    rw [show ("ghrun=".data ++ (r.data ++ (';' :: ("job=".data ++ (j.data ++ (';' ::
      ("step=".data ++ s.data))))))) = 'g' :: ("hrun=".data ++ (r.data ++ (';' ::
      ("job=".data ++ (j.data ++ (';' :: ("step=".data ++ s.data))))))) from rfl] at hd
    injection hd with hx _
    exact absurd hx (by decide)
  · decide

theorem find?_sorted_max (p : CheckpointEntry → Bool) :
    ∀ s : List CheckpointEntry,
      List.Sorted (fun a b => b.createTimeMs ≤ a.createTimeMs) s →
      ∀ y, s.find? p = some y →
      ∀ c ∈ s, p c = true → c.createTimeMs ≤ y.createTimeMs := by
  intro s
  induction s with
  | nil =>
    intro _ y hy
    simp at hy
  | cons a s' ih =>
    intro hsorted y hy c hc hpc
    by_cases hpa : p a = true
    · rw [List.find?_cons_of_pos _ hpa] at hy
      cases hy
      rcases List.mem_cons.mp hc with rfl | hc'
      · exact Nat.le_refl _
      · exact (List.sorted_cons.mp hsorted).1 c hc'
    · rw [List.find?_cons_of_neg _ (by simp [hpa])] at hy
      rcases List.mem_cons.mp hc with rfl | hc'
      · exact absurd hpc hpa
      · exact ih (List.sorted_cons.mp hsorted).2 y hy c hc' hpc

theorem find?_sorted_eq (p : CheckpointEntry → Bool) :
    ∀ s : List CheckpointEntry,
      List.Sorted (fun a b => b.createTimeMs ≤ a.createTimeMs) s →
      s.Pairwise (fun a b => a.createTimeMs ≠ b.createTimeMs) →
      ∀ c, c ∈ s → p c = true →
      (∀ x ∈ s, p x = true → x.createTimeMs ≤ c.createTimeMs) →
      s.find? p = some c := by
  intro s
  induction s with
  | nil =>
    intro _ _ c hc
    cases hc
  | cons a s' ih =>
    intro hsorted hstrict c hc hpc hmax
    by_cases hpa : p a = true
    · rw [List.find?_cons_of_pos _ hpa]
      rcases List.mem_cons.mp hc with rfl | hc'
      · rfl
      · have h1 : c.createTimeMs ≤ a.createTimeMs := (List.sorted_cons.mp hsorted).1 c hc'
        have h2 : a.createTimeMs ≤ c.createTimeMs := hmax a (List.mem_cons_self a s') hpa
        have h3 : a.createTimeMs ≠ c.createTimeMs := (List.pairwise_cons.mp hstrict).1 c hc'
        exact absurd (Nat.le_antisymm h2 h1) h3
    · rw [List.find?_cons_of_neg _ (by simp [hpa])]
      rcases List.mem_cons.mp hc with rfl | hc'
      · exact absurd hpc hpa
      · exact ih (List.sorted_cons.mp hsorted).2 (List.pairwise_cons.mp hstrict).2 c hc' hpc
          fun x hx hpx => hmax x (List.mem_cons_of_mem a hx) hpx

/-- Claim C7: with pairwise-distinct creation times,
`findLastCheckpointForJob` returns the id of the matching checkpoint with the
maximum creation time (null when none matches), independent of input order. -/
theorem findLastCheckpointForJob_max (checkpoints : List CheckpointEntry)
    (runId jobKey : String)
    (hdistinct : checkpoints.Pairwise fun a b => a.createTimeMs ≠ b.createTimeMs) :
    ((∀ c ∈ checkpoints, checkpointMatches runId jobKey c = false) →
      findLastCheckpointForJob checkpoints runId jobKey = none) ∧
    (∀ c ∈ checkpoints, checkpointMatches runId jobKey c = true →
      (∀ x ∈ checkpoints, checkpointMatches runId jobKey x = true →
        x.createTimeMs ≤ c.createTimeMs) →
      findLastCheckpointForJob checkpoints runId jobKey = some c.id) ∧
    (∀ l2, checkpoints.Perm l2 →
      findLastCheckpointForJob checkpoints runId jobKey =
        findLastCheckpointForJob l2 runId jobKey) := by
  haveI hTot : IsTotal CheckpointEntry fun a b => b.createTimeMs ≤ a.createTimeMs :=
    ⟨fun a b => Nat.le_total b.createTimeMs a.createTimeMs⟩
  haveI hTrans : IsTrans CheckpointEntry fun a b => b.createTimeMs ≤ a.createTimeMs :=
    ⟨fun _ _ _ hab hbc => Nat.le_trans hbc hab⟩
  have hsymm : ∀ {x y : CheckpointEntry},
      x.createTimeMs ≠ y.createTimeMs → y.createTimeMs ≠ x.createTimeMs :=
    fun h => fun heq => h heq.symm
  have key_facts : ∀ (l : List CheckpointEntry),
      l.Pairwise (fun a b => a.createTimeMs ≠ b.createTimeMs) →
      (sortByCreateTimeDesc l).Perm l ∧
      List.Sorted (fun a b => b.createTimeMs ≤ a.createTimeMs) (sortByCreateTimeDesc l) ∧
      (sortByCreateTimeDesc l).Pairwise (fun a b => a.createTimeMs ≠ b.createTimeMs) := by
    intro l hd
    refine ⟨List.perm_insertionSort _ l, List.sorted_insertionSort _ l, ?_⟩
    exact ((List.perm_insertionSort _ l).pairwise_iff hsymm).mpr hd
  obtain ⟨hperm, hsorted, hstrict⟩ := key_facts checkpoints hdistinct
  have hnone : ∀ (l : List CheckpointEntry),
      (∀ c ∈ l, checkpointMatches runId jobKey c = false) →
      findLastCheckpointForJob l runId jobKey = none := by
    intro l hall
    unfold findLastCheckpointForJob
    rw [List.find?_eq_none.mpr fun x hx => by
      simp [hall x ((List.perm_insertionSort _ l).mem_iff.mp hx)]]
    rfl
  have hsome : ∀ (l : List CheckpointEntry),
      l.Pairwise (fun a b => a.createTimeMs ≠ b.createTimeMs) →
      ∀ c ∈ l, checkpointMatches runId jobKey c = true →
      (∀ x ∈ l, checkpointMatches runId jobKey x = true →
        x.createTimeMs ≤ c.createTimeMs) →
      findLastCheckpointForJob l runId jobKey = some c.id := by
    intro l hd c hc hpc hmax
    obtain ⟨hperm', hsorted', hstrict'⟩ := key_facts l hd
    unfold findLastCheckpointForJob
    rw [find?_sorted_eq (checkpointMatches runId jobKey) _ hsorted' hstrict' c
      (hperm'.mem_iff.mpr hc) hpc
      fun x hx hpx => hmax x (hperm'.mem_iff.mp hx) hpx]
    rfl
  refine ⟨hnone checkpoints, hsome checkpoints hdistinct, ?_⟩
  intro l2 hl2
  have hd2 : l2.Pairwise fun a b => a.createTimeMs ≠ b.createTimeMs :=
    (hl2.pairwise_iff hsymm).mp hdistinct
  cases hfind : (sortByCreateTimeDesc checkpoints).find? (checkpointMatches runId jobKey) with
  | none =>
    have hall : ∀ c ∈ checkpoints, checkpointMatches runId jobKey c = false := by
      intro c hc
      have := List.find?_eq_none.mp hfind c (hperm.mem_iff.mpr hc)
      simpa using this
    rw [hnone checkpoints hall, hnone l2 fun c hc => hall c (hl2.mem_iff.mpr hc)]
  | some y =>
    have hpy : checkpointMatches runId jobKey y = true := List.find?_some hfind
    have hymem : y ∈ checkpoints := hperm.mem_iff.mp (List.mem_of_find?_eq_some hfind)
    have hymax : ∀ x ∈ checkpoints, checkpointMatches runId jobKey x = true →
        x.createTimeMs ≤ y.createTimeMs := by
      intro x hx hpx
      exact find?_sorted_max _ _ hsorted y hfind x (hperm.mem_iff.mpr hx) hpx
    rw [hsome checkpoints hdistinct y hymem hpy hymax,
      hsome l2 hd2 y (hl2.mem_iff.mp hymem) hpy
        fun x hx hpx => hymax x (hl2.mem_iff.mpr hx) hpx]

/-- Witness for C7 on a concrete out-of-order checkpoint list. -/
theorem findLastCheckpointForJob_max_witness :
    findLastCheckpointForJob
      [⟨"cp-1", some "ghrun=12345;job=ci;step=install", 100⟩,
       ⟨"cp-3", some "ghrun=12345;job=ci;step=test", 300⟩,
       ⟨"cp-2", some "ghrun=12345;job=ci;step=build", 200⟩,
       ⟨"cp-4", some "ghrun=99999;job=ci;step=build", 400⟩] "12345" "ci" = some "cp-3" ∧
    findLastCheckpointForJob
      [⟨"cp-1", some "ghrun=12345;job=ci;step=install", 100⟩] "77777" "ci" = none := by
  constructor
  · exact (findLastCheckpointForJob_max _ "12345" "ci" (by decide)).2.1
      ⟨"cp-3", some "ghrun=12345;job=ci;step=test", 300⟩ (by decide) (by decide) (by decide)
  · exact (findLastCheckpointForJob_max _ "77777" "ci" (by decide)).1 (by decide)

theorem sha256Hex_data_length (s : String) : (sha256Hex s).data.length = 64 := by
  show (((sha256Words (utf8Bytes s)).map toHex8).flatten).length = 64
  unfold sha256Words
  rfl

theorem hexDigit_mem (n : Nat) : hexDigit n ∈ hexChars := by
  unfold hexDigit
  have h16 : n % 16 < 16 := Nat.mod_lt _ (by omega)
  generalize hg : n % 16 = m at h16 ⊢
  interval_cases m <;> decide

theorem shortHash_data_length (s : String) : (shortHash s).data.length = HASH_LENGTH := by
  show ((sha256Hex s).data.take HASH_LENGTH).length = HASH_LENGTH
  rw [List.length_take, sha256Hex_data_length]
  decide

theorem shortHash_mem_hexChars (s : String) : ∀ c ∈ (shortHash s).data, c ∈ hexChars := by
  intro c hc
  have hc' : c ∈ (sha256Hex s).data := List.take_subset _ _ hc
  have hc'' : c ∈ ((sha256Words (utf8Bytes s)).map toHex8).flatten := hc'
  obtain ⟨l, hl, hcl⟩ := List.mem_flatten.mp hc''
  obtain ⟨w, _, rfl⟩ := List.mem_map.mp hl
  simp only [toHex8, List.mem_cons, List.not_mem_nil, or_false] at hcl
  rcases hcl with h | h | h | h | h | h | h | h <;> (subst h; exact hexDigit_mem _)

theorem deriveSpriteName_eq_truncate (context : GitHubContext)
    (h : MAX_SPRITE_NAME_LENGTH < (rawSpriteName context).length) :
    deriveSpriteNameFromContext context =
      String.mk ((rawSpriteName context).data.take
        (MAX_SPRITE_NAME_LENGTH - (shortHash (rawSpriteName context)).length - 1)) ++ "-" ++
      shortHash (rawSpriteName context) := by
  simp only [deriveSpriteNameFromContext]
  rw [if_pos h]

theorem deriveSpriteName_eq_raw (context : GitHubContext)
    (h : ¬ MAX_SPRITE_NAME_LENGTH < (rawSpriteName context).length) :
    deriveSpriteNameFromContext context = rawSpriteName context := by
  simp only [deriveSpriteNameFromContext]
  rw [if_neg h]

/-- Claim C6: a derived sprite name never exceeds `MAX_SPRITE_NAME_LENGTH`
(128), and whenever the raw joined name was truncated the result ends with
`-` followed by the 8-hex-character digest of the full untruncated name. -/
theorem deriveSpriteName_length_bounded (context : GitHubContext) :
    (deriveSpriteNameFromContext context).length ≤ MAX_SPRITE_NAME_LENGTH ∧
    (MAX_SPRITE_NAME_LENGTH < (rawSpriteName context).length →
      ('-' :: (shortHash (rawSpriteName context)).data) <:+
        (deriveSpriteNameFromContext context).data ∧
      (shortHash (rawSpriteName context)).data.length = HASH_LENGTH ∧
      ∀ c ∈ (shortHash (rawSpriteName context)).data, c ∈ hexChars) := by
  have hlenHash : (shortHash (rawSpriteName context)).length = HASH_LENGTH :=
    shortHash_data_length (rawSpriteName context)
  by_cases h : MAX_SPRITE_NAME_LENGTH < (rawSpriteName context).length
  · have heq := deriveSpriteName_eq_truncate context h
    constructor
    · rw [heq, String.length_append, String.length_append, String.length_mk,
        List.length_take, hlenHash]
      have hmin : min (MAX_SPRITE_NAME_LENGTH - (shortHash (rawSpriteName context)).length - 1)
          (rawSpriteName context).data.length ≤
          MAX_SPRITE_NAME_LENGTH - (shortHash (rawSpriteName context)).length - 1 :=
        Nat.min_le_left _ _
      rw [hlenHash] at hmin
      have : ("-" : String).length = 1 := rfl
      rw [this]
      simp only [MAX_SPRITE_NAME_LENGTH, HASH_LENGTH] at hmin ⊢
      omega
    · intro _
      refine ⟨?_, shortHash_data_length _, shortHash_mem_hexChars _⟩
      rw [heq]
      refine ⟨(rawSpriteName context).data.take
        (MAX_SPRITE_NAME_LENGTH - (shortHash (rawSpriteName context)).length - 1), ?_⟩
      rw [String.data_append, String.data_append]
      simp
  · have heq := deriveSpriteName_eq_raw context h
    rw [heq]
    exact ⟨Nat.le_of_not_lt h, fun hcontra => absurd hcontra h⟩

/-- Witness for C6: a context with a 150-character runId forces truncation. -/
theorem deriveSpriteName_length_bounded_witness :
    (deriveSpriteNameFromContext
      ⟨"o", "r", "w", String.mk (List.replicate 150 'x'), "j", none⟩).length ≤
        MAX_SPRITE_NAME_LENGTH ∧
    MAX_SPRITE_NAME_LENGTH <
      (rawSpriteName ⟨"o", "r", "w", String.mk (List.replicate 150 'x'), "j", none⟩).length ∧
    ('-' :: (shortHash (rawSpriteName
        ⟨"o", "r", "w", String.mk (List.replicate 150 'x'), "j", none⟩)).data) <:+
      (deriveSpriteNameFromContext
        ⟨"o", "r", "w", String.mk (List.replicate 150 'x'), "j", none⟩).data := by
  refine ⟨(deriveSpriteName_length_bounded _).1, by decide, ?_⟩
  exact ((deriveSpriteName_length_bounded _).2 (by decide)).1

theorem pair_eq_of_mem_nodup_keys {m : MatrixObj} (hn : (m.map Prod.fst).Nodup)
    {x y : String × Jsonv} (hx : x ∈ m) (hy : y ∈ m) (hk : x.1 = y.1) : x = y := by
  induction m with
  | nil => cases hx
  | cons p rest ih =>
    rw [List.map_cons, List.nodup_cons] at hn
    rcases List.mem_cons.mp hx with rfl | hx' <;> rcases List.mem_cons.mp hy with rfl | hy'
    · rfl
    · exact absurd (List.mem_map.mpr ⟨y, hy', hk.symm⟩) hn.1
    · exact absurd (List.mem_map.mpr ⟨x, hx', hk⟩) hn.1
    · exact ih hn.2 hx' hy'

theorem find?_key_eq_of_perm (m1 m2 : MatrixObj) (hp : m1.Perm m2)
    (hn : (m1.map Prod.fst).Nodup) (k : String) :
    m1.find? (fun p => p.1 == k) = m2.find? (fun p => p.1 == k) := by
  cases h1 : m1.find? (fun p => p.1 == k) with
  | none =>
    cases h2 : m2.find? (fun p => p.1 == k) with
    | none => rfl
    | some y =>
      have hy := List.mem_of_find?_eq_some h2
      exact absurd (List.find?_some h2) (List.find?_eq_none.mp h1 y (hp.mem_iff.mpr hy))
  | some x =>
    cases h2 : m2.find? (fun p => p.1 == k) with
    | none =>
      have hx := List.mem_of_find?_eq_some h1
      exact absurd (List.find?_some h1) (List.find?_eq_none.mp h2 x (hp.mem_iff.mp hx))
    | some y =>
      have hx := List.mem_of_find?_eq_some h1
      have hy := hp.mem_iff.mpr (List.mem_of_find?_eq_some h2)
      have hkx : x.1 = k := by simpa using List.find?_some h1
      have hky : y.1 = k := by simpa using List.find?_some h2
      rw [pair_eq_of_mem_nodup_keys hn hx hy (hkx.trans hky.symm)]

theorem serializeMatrix_perm (m1 m2 : MatrixObj) (hp : m1.Perm m2)
    (hn : (m1.map Prod.fst).Nodup) : serializeMatrix m1 = serializeMatrix m2 := by
  have hkeys : sortedKeys m1 = sortedKeys m2 := by
    unfold sortedKeys
    refine List.eq_of_perm_of_sorted ?_ (List.sorted_insertionSort _ _)
      (List.sorted_insertionSort _ _)
    exact (List.perm_insertionSort _ _).trans
      ((hp.map Prod.fst).trans (List.perm_insertionSort _ _).symm)
  unfold serializeMatrix
  rw [hkeys]
  have hmap : ∀ k ∈ sortedKeys m2,
      jsonQuote k ++ ":" ++ serializeJsonv (jsGet m1 k) =
      jsonQuote k ++ ":" ++ serializeJsonv (jsGet m2 k) := by
    intro k _
    unfold jsGet
    rw [find?_key_eq_of_perm m1 m2 hp hn k]
  rw [List.map_congr_left hmap]

/-- Claim C8: contexts that differ only by a permutation of the same
matrix key/value pairs derive identical sprite names and identical job keys
(order-independence via sorted-key serialization before hashing). -/
theorem derive_matrix_order_independence (owner repo workflow runId job : String)
    (m1 m2 : MatrixObj) (hn : (m1.map Prod.fst).Nodup) (hp : m1.Perm m2) :
    deriveSpriteNameFromContext ⟨owner, repo, workflow, runId, job, some m1⟩ =
      deriveSpriteNameFromContext ⟨owner, repo, workflow, runId, job, some m2⟩ ∧
    deriveJobKey ⟨owner, repo, workflow, runId, job, some m1⟩ =
      deriveJobKey ⟨owner, repo, workflow, runId, job, some m2⟩ := by
  have hser := serializeMatrix_perm m1 m2 hp hn
  have hlen : m1.length = m2.length := hp.length_eq
  have hraw : rawSpriteName ⟨owner, repo, workflow, runId, job, some m1⟩ =
      rawSpriteName ⟨owner, repo, workflow, runId, job, some m2⟩ := by
    unfold rawSpriteName spriteNameParts
    dsimp only
    rw [hser, hlen]
  constructor
  · simp only [deriveSpriteNameFromContext]
    rw [hraw]
  · unfold deriveJobKey
    dsimp only
    rw [hser, hlen]

/-- Witness for C8 at a concrete two-key matrix in both insertion orders. -/
theorem derive_matrix_order_independence_witness :
    deriveSpriteNameFromContext ⟨"octo", "repo", "ci", "42", "build",
        some [("os", .str "linux"), ("node", .str "20")]⟩ =
      deriveSpriteNameFromContext ⟨"octo", "repo", "ci", "42", "build",
        some [("node", .str "20"), ("os", .str "linux")]⟩ ∧
    deriveJobKey ⟨"octo", "repo", "ci", "42", "build",
        some [("os", .str "linux"), ("node", .str "20")]⟩ =
      deriveJobKey ⟨"octo", "repo", "ci", "42", "build",
        some [("node", .str "20"), ("os", .str "linux")]⟩ := by
  exact derive_matrix_order_independence "octo" "repo" "ci" "42" "build"
    [("os", .str "linux"), ("node", .str "20")] [("node", .str "20"), ("os", .str "linux")]
    (by decide) (by decide)

/-- Counterexample to C9: two contexts identical except for their non-empty,
unequal matrices whose sorted serializations have colliding 8-hex-character
SHA-256 digest prefixes (`sha256("\x7b\"a\":\"2393\"\x7d")` and
`sha256("\x7b\"a\":\"44656\"\x7d")` both start with `e6460ac1`) derive the
same job key and the same sprite name. -/
theorem deriveJobKey_collision :
    ([("a", Jsonv.str "2393")] : MatrixObj) ≠ [("a", Jsonv.str "44656")] ∧
    ([("a", Jsonv.str "2393")] : MatrixObj) ≠ [] ∧
    ([("a", Jsonv.str "44656")] : MatrixObj) ≠ [] ∧
    deriveJobKey ⟨"octo", "repo", "ci", "42", "build", some [("a", Jsonv.str "2393")]⟩ =
      deriveJobKey ⟨"octo", "repo", "ci", "42", "build", some [("a", Jsonv.str "44656")]⟩ ∧
    deriveSpriteNameFromContext
        ⟨"octo", "repo", "ci", "42", "build", some [("a", Jsonv.str "2393")]⟩ =
      deriveSpriteNameFromContext
        ⟨"octo", "repo", "ci", "42", "build", some [("a", Jsonv.str "44656")]⟩ := by
  refine ⟨by decide, by decide, by decide, by decide, by decide⟩

theorem intercalate_seven (p1 p2 p3 p4 p5 p6 x : String) :
    String.intercalate "-" [p1, p2, p3, p4, p5, p6, x] =
      p1 ++ "-" ++ p2 ++ "-" ++ p3 ++ "-" ++ p4 ++ "-" ++ p5 ++ "-" ++ p6 ++ "-" ++ x := rfl

/-- Claim C9 (amended): for contexts identical except for their non-empty
matrices, the derived job keys (and the raw sprite names) differ whenever the
8-hex-character digests of the sorted matrix serializations differ; because
of the truncation to 8 hex characters, distinct matrices can collide on the
digest, in which case job key and name coincide (see the counterexample). -/
theorem derive_matrix_hash_separates (owner repo workflow runId job : String)
    (m1 m2 : MatrixObj) (h1 : 0 < m1.length) (h2 : 0 < m2.length)
    (hh : shortHash (serializeMatrix m1) ≠ shortHash (serializeMatrix m2)) :
    deriveJobKey ⟨owner, repo, workflow, runId, job, some m1⟩ ≠
      deriveJobKey ⟨owner, repo, workflow, runId, job, some m2⟩ ∧
    rawSpriteName ⟨owner, repo, workflow, runId, job, some m1⟩ ≠
      rawSpriteName ⟨owner, repo, workflow, runId, job, some m2⟩ := by
  constructor
  · intro heq
    unfold deriveJobKey at heq
    dsimp only at heq
    rw [if_pos h1, if_pos h2] at heq
    have hd := congrArg String.data heq
    rw [String.data_append, String.data_append, String.data_append, String.data_append] at hd
    exact hh (String.ext (List.append_cancel_left hd))
  · intro heq
    unfold rawSpriteName spriteNameParts at heq
    dsimp only at heq
    rw [if_pos h1, if_pos h2] at heq
    simp only [List.cons_append, List.nil_append] at heq
    rw [intercalate_seven, intercalate_seven] at heq
    have hd := congrArg String.data heq
    rw [String.data_append, String.data_append] at hd
    exact hh (String.ext (List.append_cancel_left hd))

/-- Witness for the amended C9: singleton matrices with distinct digests give
distinct job keys and raw names. -/
theorem derive_matrix_hash_separates_witness :
    deriveJobKey ⟨"octo", "repo", "ci", "42", "build", some [("a", Jsonv.str "0")]⟩ ≠
      deriveJobKey ⟨"octo", "repo", "ci", "42", "build", some [("a", Jsonv.str "1")]⟩ ∧
    rawSpriteName ⟨"octo", "repo", "ci", "42", "build", some [("a", Jsonv.str "0")]⟩ ≠
      rawSpriteName ⟨"octo", "repo", "ci", "42", "build", some [("a", Jsonv.str "1")]⟩ := by
  exact derive_matrix_hash_separates "octo" "repo" "ci" "42" "build"
    [("a", Jsonv.str "0")] [("a", Jsonv.str "1")] (by decide) (by decide) (by decide)
